import Mathlib

/-!
Shallow embedding of `Generators/src/GeneratorPythia8.cxx` (ALICE O2),
namespace `o2::eventgen`, class `GeneratorPythia8`.

Modelling conventions:
* A Pythia8 event (`Pythia8::Event`) is a list of particle records; entry 0
  is the "system" entry, as in Pythia8.
* Particle indices (`mother1`, `mother2`, `daughter1`, `daughter2`) are
  naturals; the Pythia8 convention uses 0 for "no mother/daughter".
* Continuous quantities (momenta, production vertex, impact parameter) are
  rationals; only sign comparisons and clamping are performed on them by the
  embedded code, so this is faithful to the double/float arithmetic used.
* C++ output reference parameters are modelled by passing the caller-provided
  initial values in and returning the final values.
* `gRandom->Gaus` and the `TF1::Eval` parametrisations are external
  (ROOT); their return values are inputs of the embedded functions.
-/

namespace GeneratorPythia8

/-- A `Pythia8::Particle` record, restricted to the fields read or written by
`GeneratorPythia8.cxx`. -/
structure PyParticle where
  pdgId : Int := 0
  status : Int := 0
  statusHepMC : Int := 0
  mother1 : Nat := 0
  mother2 : Nat := 0
  daughter1 : Nat := 0
  daughter2 : Nat := 0
  px : ℚ := 0
  py : ℚ := 0
  pz : ℚ := 0
  e : ℚ := 0
  xProd : ℚ := 0
  yProd : ℚ := 0
  zProd : ℚ := 0
  tProd : ℚ := 0
deriving Repr, DecidableEq, Inhabited

/-- A `Pythia8::Event`: a sequence of particle records (entry 0 = system). -/
abbrev Event := List PyParticle

/-- Embedding of `Pythia8::Particle::daughterList()` for an ordinary particle: the four
index conventions of Pythia8 (no daughters; a single daughter; a contiguous
range `daughter1..daughter2`; two distinct daughters).  The Pythia8 special
case for the two beam entries (indices 1 and 2) is not modelled. -/
def daughterList (p : PyParticle) : List Nat :=
  if p.daughter1 = 0 ∧ p.daughter2 = 0 then []
  else if p.daughter2 = 0 ∨ p.daughter2 = p.daughter1 then [p.daughter1]
  else if p.daughter1 < p.daughter2 then
    List.range' p.daughter1 (p.daughter2 - p.daughter1 + 1)
  else [p.daughter1, p.daughter2]

/-- Daughter edge of the lineage graph of an event: `j` is listed among the
daughters of particle `i` (out-of-range `i` has no daughters). -/
def edge (ev : Event) (i j : Nat) : Prop :=
  j ∈ daughterList (ev.getD i default)

instance (ev : Event) (i j : Nat) : Decidable (edge ev i j) := by
  unfold edge; infer_instance

/-- Fuel-bounded set of indices reachable from `i` along daughter edges:
the nodes visited by a depth-first descent of depth at most `fuel`. -/
def reachN (ev : Event) : Nat → Nat → Finset Nat
  | 0, i => {i}
  | fuel + 1, i =>
      insert i ((daughterList (ev.getD i default)).foldl
        (fun s j => s ∪ reachN ev fuel j) ∅)

/-- The recursive lambda `select` of `selectFromAncestor` (lines 259-268):
inserts the current index into the accumulated `std::set<int> selected` and
recurses on every entry of `daughterList()`.  The C++ recursion carries no
explicit depth bound; it terminates exactly on lineage graphs without
reachable cycles, and `fuel` bounds the recursion depth in the embedding. -/
def selectRec (ev : Event) : Nat → Nat → Finset Nat → Finset Nat
  | 0, i, sel => insert i sel
  | fuel + 1, i, sel =>
      (daughterList (ev.getD i default)).foldl
        (fun s j => selectRec ev fuel j s) (insert i sel)

/-- The `selected` set computed by `selectFromAncestor`: the recursion started
at the ancestor with an empty set, run with depth budget `ev.length` (enough
for any acyclic lineage graph, see `mem_selectedSet_iff`). -/
def selectedSet (ev : Event) (ancestor : Nat) : Finset Nat :=
  selectRec ev ev.length ancestor ∅

/-- The `std::map<int,int> indexMap` lookup of `selectFromAncestor`
(lines 271-283): a selected index `k` is mapped to `base + position of k` in
the ascending enumeration of the selected set (`std::set` iterates in
increasing order, `base` = `outputEvent.size()`); an unselected index is
default-inserted by `std::map::operator[]`, yielding 0. -/
def remapIdx (sorted : List Nat) (base k : Nat) : Nat :=
  if k ∈ sorted then base + sorted.indexOf k else 0

/-- Rewrite the mother/daughter indices of a particle through `indexMap`
(lines 280-285, `p.mothers(m1, m2); p.daughters(d1, d2)`). -/
def remapParticle (sorted : List Nat) (base : Nat) (p : PyParticle) : PyParticle :=
  { p with
    mother1 := remapIdx sorted base p.mother1
    mother2 := remapIdx sorted base p.mother2
    daughter1 := remapIdx sorted base p.daughter1
    daughter2 := remapIdx sorted base p.daughter2 }

/-- Embedding of `GeneratorPythia8::selectFromAncestor(ancestor, inputEvent, outputEvent)`
(lines 251-289).  The traversal and the index map are built from
`inputEvent`; the particle records appended are read from the member event
`mPythia.event` (line 279), passed here as `pythiaEvent` — the caller passes
the same event for both.  Each selected particle, in ascending index order,
has its mother/daughter indices remapped and is appended to `outputEvent`. -/
def selectFromAncestor (ancestor : Nat) (pythiaEvent inputEvent outputEvent : Event) :
    Event :=
  let sorted := (selectedSet inputEvent ancestor).sort (· ≤ ·)
  outputEvent ++ sorted.map
    (fun i => remapParticle sorted outputEvent.length (pythiaEvent.getD i default))

/-- The lineage graph of `ev` is acyclic: no particle is reachable from one of
its own daughters (equivalently, no directed cycle through the daughter
relation).  Reachability is expressed through `reachN` with full depth budget,
which makes the predicate decidable; `mem_reachN_iff_reflTransGen` relates it
to `Relation.ReflTransGen (edge ev)`. -/
def acyclicEvent (ev : Event) : Prop :=
  ∀ i < ev.length, ∀ j ∈ daughterList (ev.getD i default),
    i ∉ reachN ev ev.length j

instance (ev : Event) : Decidable (acyclicEvent ev) := by
  unfold acyclicEvent; infer_instance

/-! ### Heavy-ion information: sub-collisions and nucleons -/

/-- Embedding of `Pythia8::Nucleon::Status` (UNABS / ELASTIC / DIFF / ABS). -/
inductive NStatus where
  | UNABS
  | ELASTIC
  | DIFF
  | ABS
deriving Repr, DecidableEq, Inhabited

/-- A `Pythia8::Nucleon`: status tag and PDG species id (2212 proton,
2112 neutron). -/
structure Nucleon where
  nstatus : NStatus := NStatus.UNABS
  nid : Int := 0
deriving Repr, DecidableEq, Inhabited

/-- A `Pythia8::SubCollision` as used here: pointers to a projectile and a
target nucleon.  The pointers are modelled as indices into the nucleon pool of
`HIInfo`; pointer equality in the C++ (`std::find` over `Nucleon*`) is index
equality. -/
structure SubColl where
  proj : Nat := 0
  targ : Nat := 0
deriving Repr, DecidableEq, Inhabited

/-- The heavy-ion information object (`info.hiInfo`): impact parameter, the
sub-collision list, and the pool of nucleon objects the sub-collisions point
into. -/
structure HIInfo where
  b : ℚ := 0
  subCollisions : List SubColl := []
  nucleons : List Nucleon := []
deriving Repr, DecidableEq, Inhabited

/-- Dereference a nucleon pointer in the pool. -/
def nucleonAt (h : HIInfo) (r : Nat) : Nucleon :=
  h.nucleons.getD r default

/-- Embedding of `GeneratorPythia8::getNcoll(info, nColl)` (lines 293-323): `nColl` is
zeroed, then, if heavy-ion information is present, incremented for every
sub-collision whose projectile and target nucleons both have status `ABS`.
`initColl` is the caller-provided value of the output reference parameter. -/
def getNcoll (hiinfo : Option HIInfo) (initColl : Int) : Int :=
  match hiinfo with
  | none => 0
  | some h =>
      h.subCollisions.foldl
        (fun n sc =>
          if (nucleonAt h sc.proj).nstatus = NStatus.ABS ∧
              (nucleonAt h sc.targ).nstatus = NStatus.ABS then n + 1 else n)
        0

/-- A nucleon is wounded for `getNpart`: status `ABS` or `DIFF`
(lines 364-365). -/
def wounded (h : HIInfo) (r : Nat) : Prop :=
  (nucleonAt h r).nstatus = NStatus.ABS ∨ (nucleonAt h r).nstatus = NStatus.DIFF

instance (h : HIInfo) (r : Nat) : Decidable (wounded h r) := by
  unfold wounded; infer_instance

/-- Loop state of `getNpart` (lines 355-386): the vectors `projW`/`targW` of
already-counted nucleon pointers and the four counters. -/
structure NpartState where
  projW : List Nat := []
  targW : List Nat := []
  nProtonProj : Int := 0
  nNeutronProj : Int := 0
  nProtonTarg : Int := 0
  nNeutronTarg : Int := 0
deriving Repr, DecidableEq, Inhabited

/-- Projectile half of one iteration of the sub-collision loop of `getNpart`
(lines 367-375): if the projectile nucleon is wounded and its pointer is not
yet in `projW`, record it and bump the counter of its species. -/
def npartStepProj (h : HIInfo) (st : NpartState) (sc : SubColl) : NpartState :=
  if wounded h sc.proj ∧ sc.proj ∉ st.projW then
    { st with
      projW := st.projW ++ [sc.proj]
      nProtonProj :=
        if (nucleonAt h sc.proj).nid = 2212 then st.nProtonProj + 1
        else st.nProtonProj
      nNeutronProj :=
        if (nucleonAt h sc.proj).nid = 2212 then st.nNeutronProj
        else if (nucleonAt h sc.proj).nid = 2112 then st.nNeutronProj + 1
        else st.nNeutronProj }
  else st

/-- Target half of one iteration of the sub-collision loop of `getNpart`
(lines 377-385). -/
def npartStepTarg (h : HIInfo) (st : NpartState) (sc : SubColl) : NpartState :=
  if wounded h sc.targ ∧ sc.targ ∉ st.targW then
    { st with
      targW := st.targW ++ [sc.targ]
      nProtonTarg :=
        if (nucleonAt h sc.targ).nid = 2212 then st.nProtonTarg + 1
        else st.nProtonTarg
      nNeutronTarg :=
        if (nucleonAt h sc.targ).nid = 2212 then st.nNeutronTarg
        else if (nucleonAt h sc.targ).nid = 2112 then st.nNeutronTarg + 1
        else st.nNeutronTarg }
  else st

/-- One iteration of the sub-collision loop of `getNpart` (lines 361-386):
the projectile nucleon is processed, then the target nucleon. -/
def npartStep (h : HIInfo) (st : NpartState) (sc : SubColl) : NpartState :=
  npartStepTarg h (npartStepProj h st sc) sc

/-- One-sided abstraction of the `getNpart` loop, acting on the triple
(list of already-counted pointers, proton counter, neutron counter); both the
projectile and the target half of `npartStep` are instances of it (see
`npartFold_eq_sideFold`). -/
def sideStep (h : HIInfo) (st : List Nat × Int × Int) (r : Nat) :
    List Nat × Int × Int :=
  if wounded h r ∧ r ∉ st.1 then
    (st.1 ++ [r],
     if (nucleonAt h r).nid = 2212 then st.2.1 + 1 else st.2.1,
     if (nucleonAt h r).nid = 2212 then st.2.2
     else if (nucleonAt h r).nid = 2112 then st.2.2 + 1 else st.2.2)
  else st

/-- Embedding of `GeneratorPythia8::getNpart(info, nProtonProj, nNeutronProj, nProtonTarg,
nNeutronTarg)` (lines 339-387): the four counters are zeroed; if heavy-ion
information is present, the sub-collision list is scanned once, counting each
distinct wounded nucleon pointer once, bucketed by species id.  The `init`
quadruple holds the caller-provided values of the output references. -/
def getNpart4 (hiinfo : Option HIInfo) (init : Int × Int × Int × Int) :
    Int × Int × Int × Int :=
  match hiinfo with
  | none => (0, 0, 0, 0)
  | some h =>
      let st := h.subCollisions.foldl (npartStep h) {}
      (st.nProtonProj, st.nNeutronProj, st.nProtonTarg, st.nNeutronTarg)

/-- Embedding of `GeneratorPythia8::getNpart(info, nPart)` (lines 327-335): sum of the four
per-side/per-species participant counts. -/
def getNpart1 (hiinfo : Option HIInfo) (init : Int) : Int :=
  let q := getNpart4 hiinfo (0, 0, 0, 0)
  q.1 + q.2.1 + q.2.2.1 + q.2.2.2

/-! ### Nuclear remnants (`getNremn`) -/

/-- A particle is a nuclear remnant candidate (lines 407-412): PDG code at
least 1000000000 and last decimal digit 9 (codes are `±10LZZZAAA9`; negative
codes are excluded by the first test). -/
def isRemnant (p : PyParticle) : Prop :=
  1000000000 ≤ p.pdgId ∧ p.pdgId % 10 = 9

instance (p : PyParticle) : Decidable (isRemnant p) := by
  unfold isRemnant; infer_instance

/-- Digit extraction of lines 416-421 on the (positive) PDG code:
`pdg /= 10; A = pdg % 1000; pdg /= 1000; Z = pdg % 1000; pdg /= 1000;
L = pdg % 10`.  All operands are positive, so C++ truncating division agrees
with natural-number division. -/
def remnantA (p : PyParticle) : Nat := p.pdgId.toNat / 10 % 1000

/-- The charge digits `Z` of the remnant PDG code. -/
def remnantZ (p : PyParticle) : Nat := p.pdgId.toNat / 10 / 1000 % 1000

/-- The strangeness digit `L` of the remnant PDG code. -/
def remnantL (p : PyParticle) : Nat := p.pdgId.toNat / 10 / 1000 / 1000 % 10

/-- State of the particle loop of `getNremn`: the four counters (the remnant
multiplicity `nNucRem`, used only for a warning log, is not tracked). -/
structure RemnState where
  nProtonProj : Int := 0
  nNeutronProj : Int := 0
  nProtonTarg : Int := 0
  nNeutronTarg : Int := 0
deriving Repr, DecidableEq, Inhabited

/-- One iteration of the particle loop of `getNremn` (lines 402-432): skip
non-remnants; otherwise assign (overwrite) `Z` and `A - Z` to the projectile
side if `pz > 0` and to the target side if `pz < 0`. -/
def remnStep (st : RemnState) (p : PyParticle) : RemnState :=
  if isRemnant p then
    let st1 :=
      if 0 < p.pz then
        { st with
          nProtonProj := (remnantZ p : Int)
          nNeutronProj := (remnantA p : Int) - (remnantZ p : Int) }
      else st
    if p.pz < 0 then
      { st1 with
        nProtonTarg := (remnantZ p : Int)
        nNeutronTarg := (remnantA p : Int) - (remnantZ p : Int) }
    else st1
  else st

/-- Embedding of `GeneratorPythia8::getNremn(event, ...)` (lines 391-437): counters zeroed,
then one pass over the event record. -/
def getNremn (event : Event) : Int × Int × Int × Int :=
  let st := event.foldl remnStep {}
  (st.nProtonProj, st.nNeutronProj, st.nProtonTarg, st.nNeutronTarg)

/-- The remnant PDG code `10LZZZAAA9` for given mass number `A`, charge `Z`
and flag `L` (spec-side encoder used to state the decoding claims). -/
def encodeRemnPdg (A Z L : Nat) : Int :=
  ((((100 + L) * 1000 + Z) * 1000 + A) * 10 + 9 : Nat)

/-! ### Free spectators (`getNfreeSpec`) -/

/-- The `o2::zdc::FragmentParam` parametrisations (TF1 objects evaluated at
the impact parameter): average and width for neutrons and protons.  The
parametrisation itself is data-driven and external; it enters the embedded
code only through these four evaluations. -/
structure FragModel where
  fNeutrons : ℚ → ℚ
  sigmaNeutrons : ℚ → ℚ
  fProtons : ℚ → ℚ
  sigmaProtons : ℚ → ℚ

/-- The four values returned by the four `gRandom->Gaus(...)` calls of
`getNfreeSpec` (two neutron draws, then two proton draws). -/
structure GausDraws where
  n0 : ℚ := 0
  n1 : ℚ := 0
  p0 : ℚ := 0
  p1 : ℚ := 0
deriving Repr, DecidableEq, Inhabited

/-- C cast `(int)` of a floating value: truncation toward zero. -/
def truncToInt (q : ℚ) : Int :=
  if 0 ≤ q then ⌊q⌋ else ⌈q⌉

/-- One neutron clamp of `getNfreeSpec` (lines 468-477): truncate the draw,
zero it if the average or the count is negative, cap at 126. -/
def clampNeutron (nave draw : ℚ) : Int :=
  let n0 := truncToInt draw
  let n1 := if nave < 0 ∨ n0 < 0 then 0 else n0
  if 126 < n1 then 126 else n1

/-- One proton clamp of `getNfreeSpec` (lines 481-491): the draw is divided
by 0.7, truncated, zeroed if the average or the count is negative, capped
at 82. -/
def clampProton (pave draw : ℚ) : Int :=
  let p0 := truncToInt (draw / (7 / 10))
  let p1 := if pave < 0 ∨ p0 < 0 then 0 else p0
  if 82 < p1 then 82 else p1

/-- Embedding of `GeneratorPythia8::getNfreeSpec(info, nFreenProj, nFreepProj, nFreenTarg,
nFreepTarg)` (lines 442-499): when no heavy-ion information is present the
function returns before touching the output references (they keep the
caller-provided `init` values); otherwise the four counts are computed from
the parametrisation at the impact parameter and the Gaussian draws, each
clamped to its physical range.  Result order: `(nFreenProj, nFreepProj,
nFreenTarg, nFreepTarg)`. -/
def getNfreeSpec (hiinfo : Option HIInfo) (frag : FragModel) (draws : GausDraws)
    (init : Int × Int × Int × Int) : Int × Int × Int × Int :=
  match hiinfo with
  | none => init
  | some h =>
      let b := h.b
      let nave := frag.fNeutrons b
      let pave := frag.fProtons b
      (clampNeutron nave draws.n0, clampProton pave draws.p0,
       clampNeutron nave draws.n1, clampProton pave draws.p1)

/-! ### Particle import and event generation -/

/-- A `TParticle` as filled by `importParticles` (lines 176-194), restricted
to the fields set there.  `st` is the pair fed to `MCGenStatusEncoding`
(the packed encoding itself is external). -/
structure TParticle where
  pdg : Int := 0
  st : Int × Int := (0, 0)
  m1 : Int := 0
  m2 : Int := 0
  d1 : Int := 0
  d2 : Int := 0
  px : ℚ := 0
  py : ℚ := 0
  pz : ℚ := 0
  e : ℚ := 0
  vx : ℚ := 0
  vy : ℚ := 0
  vz : ℚ := 0
  vt : ℚ := 0
  toBeDone : Bool := false
deriving Repr, DecidableEq, Inhabited

/-- Conversion of one Pythia8 particle to the `TParticle` pushed by
`importParticles`: mother/daughter indices are decremented by one (to signed
integers), the `kToBeDone` bit is set iff the HepMC status is 1. -/
def convertParticle (particle : PyParticle) : TParticle :=
  { pdg := particle.pdgId
    st := (particle.statusHepMC, particle.status)
    m1 := (particle.mother1 : Int) - 1
    m2 := (particle.mother2 : Int) - 1
    d1 := (particle.daughter1 : Int) - 1
    d2 := (particle.daughter2 : Int) - 1
    px := particle.px
    py := particle.py
    pz := particle.pz
    e := particle.e
    vx := particle.xProd
    vy := particle.yProd
    vz := particle.zProd
    vt := particle.tProd
    toBeDone := particle.statusHepMC = 1 }

/-- Embedding of `GeneratorPythia8::importParticles(event)` (lines 168-198): the particles
appended to `mParticles`, i.e. the loop `for (iparticle = 1; iparticle <
event.size(); ...)` — the first entry (the system) is skipped. -/
def importParticles (event : Event) : List TParticle :=
  (List.range' 1 (event.length - 1)).map
    (fun iparticle => convertParticle (event.getD iparticle default))

/-! ### Specification-side characterisations (used only in theorem statements) -/

/-- The set of distinct nucleon pointers among `refs` that are wounded and of
species `code`. -/
def partSet (h : HIInfo) (refs : List Nat) (code : Int) : Finset Nat :=
  refs.toFinset.filter (fun r => wounded h r ∧ (nucleonAt h r).nid = code)

/-- Number of distinct nucleon pointers among `refs` that are wounded and of
species `code` (the participant count the spec ascribes to `getNpart`). -/
def partCount (h : HIInfo) (refs : List Nat) (code : Int) : Nat :=
  (partSet h refs code).card

/-- The projectile-side remnants of an event: remnant PDG code and positive
longitudinal momentum, in event order. -/
def projRemnants (ev : Event) : List PyParticle :=
  ev.filter (fun p => decide (isRemnant p ∧ 0 < p.pz))

/-- The target-side remnants of an event: remnant PDG code and negative
longitudinal momentum, in event order. -/
def targRemnants (ev : Event) : List PyParticle :=
  ev.filter (fun p => decide (isRemnant p ∧ p.pz < 0))

/-- The (proton, neutron) pair decoded from one remnant: `(Z, A - Z)`. -/
def remnDecode (p : PyParticle) : Int × Int :=
  ((remnantZ p : Int), (remnantA p : Int) - (remnantZ p : Int))

/-- Embedding of `GeneratorPythia8::generateEvent()` (lines 123-164): returns false when
`mPythia.next()` fails; in Pythia 8.2 builds (`PYTHIA_VERSION_INTEGER <
8300`) it additionally runs `mPythia.moreDecays()` and returns false when
that fails; otherwise true.  The 8.2-only zeroing of production vertices does
not influence the return value and is not modelled. -/
def generateEvent (pythiaVersion : Nat) (nextOk moreDecaysOk : Bool) : Bool :=
  if !nextOk then false
  else if pythiaVersion < 8300 then
    if !moreDecaysOk then false else true
  else true

/-! ### Concrete fixtures used by witness theorems -/

/-- A small concrete event: entry 0 is the system; particle 1 has daughters
2 and 3; particles 2 and 3 both have the single daughter 4 (so 4 is
reachable from 1 via two paths); particle 4 has no daughters. -/
def evW : Event :=
  [ {},
    { mother1 := 0, daughter1 := 2, daughter2 := 3 },
    { mother1 := 1, daughter1 := 4 },
    { mother1 := 1, daughter1 := 4 },
    { mother1 := 2, mother2 := 3 } ]

/-- A concrete output event holding one (system) entry. -/
def outW : Event := [ {} ]

/-- A small concrete heavy-ion record: two nucleons (an absorbed proton and a
diffractive neutron) and two sub-collisions that share both nucleons. -/
def hiW : HIInfo :=
  { b := 1
    subCollisions := [⟨0, 1⟩, ⟨0, 1⟩]
    nucleons := [⟨NStatus.ABS, 2212⟩, ⟨NStatus.DIFF, 2112⟩] }

/-! ### Reachability lemmas for `selectFromAncestor` -/

lemma foldl_union_init (g : Nat → Finset Nat) :
    ∀ (l : List Nat) (s : Finset Nat),
      l.foldl (fun s j => s ∪ g j) s = s ∪ l.foldl (fun s j => s ∪ g j) ∅ := by
  intro l
  induction l with
  | nil => intro s; simp
  | cons b l ih =>
      intro s
      simp only [List.foldl_cons]
      rw [ih (s ∪ g b), ih (∅ ∪ g b)]
      ext x
      simp

lemma mem_foldl_union (g : Nat → Finset Nat) (l : List Nat) (x : Nat) :
    x ∈ l.foldl (fun s j => s ∪ g j) ∅ ↔ ∃ j ∈ l, x ∈ g j := by
  induction l with
  | nil => simp
  | cons b l ih =>
      simp only [List.foldl_cons]
      rw [foldl_union_init g l (∅ ∪ g b)]
      simp [ih]

lemma selectRec_eq_union (ev : Event) :
    ∀ (fuel i : Nat) (sel : Finset Nat),
      selectRec ev fuel i sel = sel ∪ reachN ev fuel i := by
  intro fuel
  induction fuel with
  | zero =>
      intro i sel
      simp only [selectRec, reachN]
      ext x
      simp
      tauto
  | succ fuel ih =>
      intro i sel
      simp only [selectRec, reachN]
      have haux : ∀ (l : List Nat) (s : Finset Nat),
          l.foldl (fun s j => selectRec ev fuel j s) s
            = s ∪ l.foldl (fun s j => s ∪ reachN ev fuel j) ∅ := by
        intro l
        induction l with
        | nil => intro s; simp
        | cons b l ihl =>
            intro s
            simp only [List.foldl_cons]
            rw [ihl, ih b s, foldl_union_init _ l (∅ ∪ reachN ev fuel b)]
            ext x
            simp
      rw [haux]
      ext x
      simp

lemma mem_reachN_self (ev : Event) (fuel i : Nat) : i ∈ reachN ev fuel i := by
  cases fuel with
  | zero => simp [reachN]
  | succ fuel => simp [reachN]

lemma reachN_mono_step (ev : Event) (fuel i j : Nat)
    (hj : j ∈ daughterList (ev.getD i default)) :
    reachN ev fuel j ⊆ reachN ev (fuel + 1) i := by
  intro x hx
  simp only [reachN, Finset.mem_insert]
  right
  rw [mem_foldl_union]
  exact ⟨j, hj, hx⟩

lemma reflTransGen_of_mem_reachN (ev : Event) :
    ∀ (fuel i j : Nat), j ∈ reachN ev fuel i →
      Relation.ReflTransGen (edge ev) i j := by
  intro fuel
  induction fuel with
  | zero =>
      intro i j hj
      simp [reachN] at hj
      subst hj
      exact Relation.ReflTransGen.refl
  | succ fuel ih =>
      intro i j hj
      simp only [reachN, Finset.mem_insert] at hj
      rcases hj with rfl | hj
      · exact Relation.ReflTransGen.refl
      · rw [mem_foldl_union] at hj
        obtain ⟨b, hb, hjb⟩ := hj
        exact Relation.ReflTransGen.head (show edge ev i b from hb) (ih b j hjb)

lemma edge_lt (ev : Event) (i j : Nat) (h : edge ev i j) : i < ev.length := by
  by_contra hcon
  push_neg at hcon
  unfold edge at h
  rw [List.getD_eq_default _ _ hcon] at h
  have hd : daughterList (default : PyParticle) = [] := rfl
  rw [hd] at h
  exact absurd h (List.not_mem_nil j)

lemma chain_getLast?_mem_reachN (ev : Event) :
    ∀ (l : List Nat) (i j fuel : Nat), List.Chain (edge ev) i l →
      (i :: l).getLast? = some j → l.length ≤ fuel → j ∈ reachN ev fuel i := by
  intro l
  induction l with
  | nil =>
      intro i j fuel _ hlast _
      simp at hlast
      subst hlast
      exact mem_reachN_self ev fuel i
  | cons b l ih =>
      intro i j fuel hchain hlast hlen
      rw [List.getLast?_cons_cons] at hlast
      rcases List.chain_cons.mp hchain with ⟨hib, hbl⟩
      cases fuel with
      | zero => simp at hlen
      | succ fuel =>
          refine reachN_mono_step ev fuel i b hib ?_
          exact ih b j fuel hbl hlast (by simp at hlen; omega)

lemma chain_shorten {r : Nat → Nat → Prop} :
    ∀ (n : Nat) (l : List Nat) (i : Nat), l.length ≤ n → List.Chain r i l →
      ∃ m : List Nat, List.Chain r i m ∧ m ⊆ l ∧ (i :: m).Nodup ∧
        (i :: m).getLast? = (i :: l).getLast? := by
  intro n
  induction n with
  | zero =>
      intro l i hlen _
      have hnil : l = [] := List.length_eq_zero.mp (Nat.le_zero.mp hlen)
      subst hnil
      exact ⟨[], List.Chain.nil, by simp, by simp, rfl⟩
  | succ n ih =>
      intro l i hlen hchain
      by_cases hi : i ∈ l
      · obtain ⟨t, u, rfl⟩ := List.append_of_mem hi
        have hsplit := List.chain_split.mp hchain
        obtain ⟨m, hm1, hm2, hm3, hm4⟩ :=
          ih u i (by simp at hlen ⊢; omega) hsplit.2
        refine ⟨m, hm1, ?_, hm3, ?_⟩
        · intro x hx
          exact List.mem_append.mpr (Or.inr (List.mem_cons.mpr (Or.inr (hm2 hx))))
        · rw [hm4, show i :: (t ++ i :: u) = (i :: t) ++ i :: u from by simp,
            List.getLast?_append_cons]
      · cases l with
        | nil => exact ⟨[], List.Chain.nil, by simp, by simp, rfl⟩
        | cons b tl =>
            rcases List.chain_cons.mp hchain with ⟨hib, hbtl⟩
            obtain ⟨m, hm1, hm2, hm3, hm4⟩ :=
              ih tl b (by simp at hlen ⊢; omega) hbtl
            refine ⟨b :: m, List.chain_cons.mpr ⟨hib, hm1⟩, ?_, ?_, ?_⟩
            · intro x hx
              rcases List.mem_cons.mp hx with rfl | hx
              · exact List.mem_cons_self _ _
              · exact List.mem_cons.mpr (Or.inr (hm2 hx))
            · refine List.nodup_cons.mpr ⟨?_, hm3⟩
              intro hmem
              apply hi
              rcases List.mem_cons.mp hmem with rfl | hx
              · exact List.mem_cons_self _ _
              · exact List.mem_cons.mpr (Or.inr (hm2 hx))
            · rw [List.getLast?_cons_cons, hm4, List.getLast?_cons_cons]

lemma chain_dropLast_sources {r : Nat → Nat → Prop} :
    ∀ (l : List Nat) (i : Nat), List.Chain r i l →
      ∀ x ∈ (i :: l).dropLast, ∃ y, r x y := by
  intro l
  induction l with
  | nil => intro i _ x hx; simp at hx
  | cons b tl ih =>
      intro i hchain x hx
      rcases List.chain_cons.mp hchain with ⟨hib, hbtl⟩
      rw [List.dropLast_cons₂] at hx
      rcases List.mem_cons.mp hx with rfl | hx
      · exact ⟨b, hib⟩
      · exact ih b hbtl x hx

lemma nodup_chain_length_le (ev : Event) (l : List Nat) (i : Nat)
    (hchain : List.Chain (edge ev) i l) (hnd : (i :: l).Nodup) :
    l.length ≤ ev.length := by
  have hsub : ((i :: l).dropLast).Nodup := hnd.sublist (List.dropLast_sublist _)
  have hsubset : ((i :: l).dropLast).toFinset ⊆ Finset.range ev.length := by
    intro x hx
    rw [Finset.mem_range]
    obtain ⟨y, hy⟩ :=
      chain_dropLast_sources l i hchain x (List.mem_toFinset.mp hx)
    exact edge_lt ev x y hy
  have hcard := Finset.card_le_card hsubset
  rw [List.toFinset_card_of_nodup hsub, Finset.card_range] at hcard
  simpa [List.length_dropLast] using hcard

lemma mem_reachN_iff_reflTransGen (ev : Event) (i j : Nat) :
    j ∈ reachN ev ev.length i ↔ Relation.ReflTransGen (edge ev) i j := by
  constructor
  · exact reflTransGen_of_mem_reachN ev ev.length i j
  · intro h
    obtain ⟨l, hchain, hlast⟩ := List.exists_chain_of_relationReflTransGen h
    have hlast? : (i :: l).getLast? = some j := by
      rw [List.getLast?_eq_getLast_of_ne_nil (List.cons_ne_nil i l), hlast]
    obtain ⟨m, hm1, hm2, hm3, hm4⟩ := chain_shorten l.length l i le_rfl hchain
    exact chain_getLast?_mem_reachN ev m i j ev.length hm1 (hm4.trans hlast?)
      (nodup_chain_length_le ev m i hm1 hm3)

lemma mem_selectedSet_iff (ev : Event) (a j : Nat) :
    j ∈ selectedSet ev a ↔ Relation.ReflTransGen (edge ev) a j := by
  unfold selectedSet
  rw [selectRec_eq_union]
  simp [mem_reachN_iff_reflTransGen]

lemma selectedSet_of_no_daughters (ev : Event) (a : Nat)
    (h : daughterList (ev.getD a default) = []) : selectedSet ev a = {a} := by
  ext j
  rw [mem_selectedSet_iff]
  simp only [Finset.mem_singleton]
  constructor
  · intro hr
    rcases Relation.ReflTransGen.cases_head hr with rfl | ⟨c, hc, _⟩
    · rfl
    · unfold edge at hc
      rw [h] at hc
      exact absurd hc (List.not_mem_nil c)
  · rintro rfl
    exact Relation.ReflTransGen.refl

/-- C1: for every input event whose mother/daughter lineage graph is acyclic
and every designated ancestor index, `selectFromAncestor` appends to the
output event exactly the ancestor together with its full transitive daughter
closure, each selected particle appearing exactly once even when it is
reachable via multiple daughter paths (the selected set is characterised as
the `ReflTransGen` closure of the daughter relation and the number of
appended particles is its cardinality); when the ancestor has no daughters,
exactly one particle (the ancestor) is appended. -/
theorem claim_C1_selectFromAncestor_closure (ev out : Event) (a : Nat)
    (hacyc : acyclicEvent ev) (ha : a < ev.length) :
    (∀ j, j ∈ selectedSet ev a ↔ Relation.ReflTransGen (edge ev) a j) ∧
    (selectFromAncestor a ev ev out).length
      = out.length + (selectedSet ev a).card ∧
    (daughterList (ev.getD a default) = [] →
      selectedSet ev a = {a} ∧
      (selectFromAncestor a ev ev out).length = out.length + 1) := by
  refine ⟨fun j => mem_selectedSet_iff ev a j, ?_, ?_⟩
  · simp [selectFromAncestor, Finset.length_sort]
  · intro h
    have hsel := selectedSet_of_no_daughters ev a h
    exact ⟨hsel, by simp [selectFromAncestor, Finset.length_sort, hsel]⟩

/-- C1 witness: the claim instantiated on the concrete diamond-shaped event
`evW` (particle 4 reachable from ancestor 1 via two paths), ancestor 1,
output `outW`. -/
theorem claim_C1_witness :
    acyclicEvent evW ∧ 1 < evW.length ∧
    ((∀ j, j ∈ selectedSet evW 1 ↔ Relation.ReflTransGen (edge evW) 1 j) ∧
     (selectFromAncestor 1 evW evW outW).length
       = outW.length + (selectedSet evW 1).card ∧
     (daughterList (evW.getD 1 default) = [] →
       selectedSet evW 1 = {1} ∧
       (selectFromAncestor 1 evW evW outW).length = outW.length + 1)) :=
  ⟨by decide, by decide,
    claim_C1_selectFromAncestor_closure evW outW 1 (by decide) (by decide)⟩

/-! ### Index-remapping lemmas for `selectFromAncestor` -/

lemma remapIdx_of_mem (sorted : List Nat) (base k : Nat) (hk : k ∈ sorted) :
    base ≤ remapIdx sorted base k ∧ remapIdx sorted base k < base + sorted.length := by
  unfold remapIdx
  rw [if_pos hk]
  exact ⟨Nat.le_add_right _ _,
    Nat.add_lt_add_left (List.indexOf_lt_length.mpr hk) _⟩

lemma remapIdx_cases (sorted : List Nat) (base k : Nat) :
    remapIdx sorted base k = 0 ∨
      (base ≤ remapIdx sorted base k ∧
        remapIdx sorted base k < base + sorted.length) := by
  by_cases hk : k ∈ sorted
  · exact Or.inr (remapIdx_of_mem sorted base k hk)
  · left
    unfold remapIdx
    rw [if_neg hk]

/-- C2: every mother/daughter index stored in the particles appended to the
output event by `selectFromAncestor` is either unset (0, the Pythia8 null
index, produced by the default-inserting `std::map` lookup for unselected
references) or a valid index strictly below the output event's length, and
every index referring to a particle selected in the input is remapped to a
valid output position (at or past the original output length, below the final
length). -/
theorem claim_C2_selectFromAncestor_indices_valid (ev out : Event) (a : Nat) :
    ∀ p ∈ (selectFromAncestor a ev ev out).drop out.length,
      (p.mother1 = 0 ∨ p.mother1 < (selectFromAncestor a ev ev out).length) ∧
      (p.mother2 = 0 ∨ p.mother2 < (selectFromAncestor a ev ev out).length) ∧
      (p.daughter1 = 0 ∨ p.daughter1 < (selectFromAncestor a ev ev out).length) ∧
      (p.daughter2 = 0 ∨ p.daughter2 < (selectFromAncestor a ev ev out).length) ∧
      (∀ k ∈ selectedSet ev a,
        out.length ≤ remapIdx ((selectedSet ev a).sort (· ≤ ·)) out.length k ∧
        remapIdx ((selectedSet ev a).sort (· ≤ ·)) out.length k
          < (selectFromAncestor a ev ev out).length) := by
  intro p hp
  have hlen : (selectFromAncestor a ev ev out).length
      = out.length + ((selectedSet ev a).sort (· ≤ ·)).length := by
    simp [selectFromAncestor]
  have hdrop : (selectFromAncestor a ev ev out).drop out.length
      = ((selectedSet ev a).sort (· ≤ ·)).map
          (fun i => remapParticle ((selectedSet ev a).sort (· ≤ ·)) out.length
            (ev.getD i default)) := by
    simp only [selectFromAncestor]
    exact List.drop_left _ _
  rw [hdrop] at hp
  obtain ⟨i, hi, rfl⟩ := List.mem_map.mp hp
  have hfield : ∀ k, remapIdx ((selectedSet ev a).sort (· ≤ ·)) out.length k = 0 ∨
      remapIdx ((selectedSet ev a).sort (· ≤ ·)) out.length k
        < (selectFromAncestor a ev ev out).length := by
    intro k
    rcases remapIdx_cases ((selectedSet ev a).sort (· ≤ ·)) out.length k with
      h0 | ⟨_, hlt⟩
    · exact Or.inl h0
    · exact Or.inr (by omega)
  refine ⟨?_, ?_, ?_, ?_, ?_⟩
  · exact hfield _
  · exact hfield _
  · exact hfield _
  · exact hfield _
  · intro k hk
    have hk2 : k ∈ (selectedSet ev a).sort (· ≤ ·) := (Finset.mem_sort _).mpr hk
    obtain ⟨hge, hlt⟩ :=
      remapIdx_of_mem ((selectedSet ev a).sort (· ≤ ·)) out.length k hk2
    exact ⟨hge, by omega⟩

lemma mem_drop_selectFromAncestor (ev out : Event) (a i : Nat)
    (hi : i ∈ selectedSet ev a) :
    remapParticle ((selectedSet ev a).sort (· ≤ ·)) out.length (ev.getD i default)
      ∈ (selectFromAncestor a ev ev out).drop out.length := by
  have hdrop : (selectFromAncestor a ev ev out).drop out.length
      = ((selectedSet ev a).sort (· ≤ ·)).map
          (fun i => remapParticle ((selectedSet ev a).sort (· ≤ ·)) out.length
            (ev.getD i default)) := by
    simp only [selectFromAncestor]
    exact List.drop_left _ _
  rw [hdrop]
  exact List.mem_map_of_mem _ ((Finset.mem_sort _).mpr hi)

/-- C2 witness: the claim instantiated on the concrete event `evW`, ancestor
1, output `outW`, at the appended copy of particle 1. -/
theorem claim_C2_witness :
    (remapParticle ((selectedSet evW 1).sort (· ≤ ·)) outW.length
        (evW.getD 1 default))
      ∈ (selectFromAncestor 1 evW evW outW).drop outW.length ∧
    ((remapParticle ((selectedSet evW 1).sort (· ≤ ·)) outW.length
        (evW.getD 1 default)).mother1 = 0 ∨
      (remapParticle ((selectedSet evW 1).sort (· ≤ ·)) outW.length
        (evW.getD 1 default)).mother1
        < (selectFromAncestor 1 evW evW outW).length) :=
  ⟨mem_drop_selectFromAncestor evW outW 1 1 (by decide),
    (claim_C2_selectFromAncestor_indices_valid evW outW 1 _
      (mem_drop_selectFromAncestor evW outW 1 1 (by decide))).1⟩

/-! ### Participant counting (`getNpart`) -/

lemma insert_sdiff_insert_eq (S W : Finset Nat) (r : Nat) (hrW : r ∉ W) :
    (insert r S \ W).card = (S \ insert r W).card + 1 := by
  have h1 : insert r S \ W = insert r (S \ insert r W) := by
    ext x
    by_cases hxr : x = r
    · subst hxr; simp [hrW]
    · simp [hxr]
  rw [h1, Finset.card_insert_of_not_mem (by simp)]

lemma sdiff_insert_of_not_mem_left (S W : Finset Nat) (r : Nat) (hrS : r ∉ S) :
    S \ insert r W = S \ W := by
  ext x
  by_cases hxr : x = r
  · subst hxr; simp [hrS]
  · simp [hxr]

lemma insert_sdiff_of_mem_right (S W : Finset Nat) (r : Nat) (hrW : r ∈ W) :
    insert r S \ W = S \ W := by
  ext x
  by_cases hxr : x = r
  · subst hxr; simp [hrW]
  · simp [hxr]

lemma partSet_cons (h : HIInfo) (r : Nat) (refs : List Nat) (code : Int) :
    partSet h (r :: refs) code
      = if wounded h r ∧ (nucleonAt h r).nid = code then
          insert r (partSet h refs code)
        else partSet h refs code := by
  simp [partSet, List.toFinset_cons, Finset.filter_insert]

lemma not_mem_partSet (h : HIInfo) (r : Nat) (refs : List Nat) (code : Int)
    (hne : ¬((nucleonAt h r).nid = code)) : r ∉ partSet h refs code := by
  simp [partSet]
  intro _ _
  exact hne

lemma npartStepTarg_projTriple (h : HIInfo) (st : NpartState) (sc : SubColl) :
    ((npartStepTarg h st sc).projW, (npartStepTarg h st sc).nProtonProj,
      (npartStepTarg h st sc).nNeutronProj)
      = (st.projW, st.nProtonProj, st.nNeutronProj) := by
  unfold npartStepTarg
  split <;> rfl

lemma npartStepProj_targTriple (h : HIInfo) (st : NpartState) (sc : SubColl) :
    ((npartStepProj h st sc).targW, (npartStepProj h st sc).nProtonTarg,
      (npartStepProj h st sc).nNeutronTarg)
      = (st.targW, st.nProtonTarg, st.nNeutronTarg) := by
  unfold npartStepProj
  split <;> rfl

lemma npartStepProj_side (h : HIInfo) (st : NpartState) (sc : SubColl) :
    ((npartStepProj h st sc).projW, (npartStepProj h st sc).nProtonProj,
      (npartStepProj h st sc).nNeutronProj)
      = sideStep h (st.projW, st.nProtonProj, st.nNeutronProj) sc.proj := by
  by_cases hc : wounded h sc.proj ∧ sc.proj ∉ st.projW
  · simp [npartStepProj, sideStep, hc]
  · simp [npartStepProj, sideStep, hc]

lemma npartStepTarg_side (h : HIInfo) (st : NpartState) (sc : SubColl) :
    ((npartStepTarg h st sc).targW, (npartStepTarg h st sc).nProtonTarg,
      (npartStepTarg h st sc).nNeutronTarg)
      = sideStep h (st.targW, st.nProtonTarg, st.nNeutronTarg) sc.targ := by
  by_cases hc : wounded h sc.targ ∧ sc.targ ∉ st.targW
  · simp [npartStepTarg, sideStep, hc]
  · simp [npartStepTarg, sideStep, hc]

lemma npartStep_projTriple (h : HIInfo) (st : NpartState) (sc : SubColl) :
    ((npartStep h st sc).projW, (npartStep h st sc).nProtonProj,
      (npartStep h st sc).nNeutronProj)
      = sideStep h (st.projW, st.nProtonProj, st.nNeutronProj) sc.proj := by
  unfold npartStep
  rw [npartStepTarg_projTriple]
  exact npartStepProj_side h st sc

lemma npartStep_targTriple (h : HIInfo) (st : NpartState) (sc : SubColl) :
    ((npartStep h st sc).targW, (npartStep h st sc).nProtonTarg,
      (npartStep h st sc).nNeutronTarg)
      = sideStep h (st.targW, st.nProtonTarg, st.nNeutronTarg) sc.targ := by
  unfold npartStep
  rw [npartStepTarg_side]
  rw [npartStepProj_targTriple]

lemma npartFold_eq_sideFold (h : HIInfo) :
    ∀ (scs : List SubColl) (st : NpartState),
      ((scs.foldl (npartStep h) st).projW,
       (scs.foldl (npartStep h) st).nProtonProj,
       (scs.foldl (npartStep h) st).nNeutronProj)
        = (scs.map SubColl.proj).foldl (sideStep h)
            (st.projW, st.nProtonProj, st.nNeutronProj) ∧
      ((scs.foldl (npartStep h) st).targW,
       (scs.foldl (npartStep h) st).nProtonTarg,
       (scs.foldl (npartStep h) st).nNeutronTarg)
        = (scs.map SubColl.targ).foldl (sideStep h)
            (st.targW, st.nProtonTarg, st.nNeutronTarg) := by
  intro scs
  induction scs with
  | nil => intro st; exact ⟨rfl, rfl⟩
  | cons sc scs ih =>
      intro st
      rw [List.map_cons, List.map_cons, List.foldl_cons, List.foldl_cons,
        List.foldl_cons]
      obtain ⟨ih1, ih2⟩ := ih (npartStep h st sc)
      rw [← npartStep_projTriple, ← npartStep_targTriple]
      exact ⟨ih1, ih2⟩

lemma sideFold_counts (h : HIInfo) :
    ∀ (refs W : List Nat) (cp cn : Int),
      (refs.foldl (sideStep h) (W, cp, cn)).2.1
          = cp + ((partSet h refs 2212 \ W.toFinset).card : Int) ∧
      (refs.foldl (sideStep h) (W, cp, cn)).2.2
          = cn + ((partSet h refs 2112 \ W.toFinset).card : Int) := by
  intro refs
  induction refs with
  | nil => intro W cp cn; simp [partSet]
  | cons r refs ih =>
      intro W cp cn
      rw [List.foldl_cons]
      by_cases hw : wounded h r ∧ r ∉ W
      · have hrW : r ∉ W.toFinset := fun hc => hw.2 (List.mem_toFinset.mp hc)
        have hWr : (W ++ [r]).toFinset = insert r W.toFinset := by
          ext x
          simp [or_comm]
        have hstep : sideStep h (W, cp, cn) r
            = (W ++ [r],
               if (nucleonAt h r).nid = 2212 then cp + 1 else cp,
               if (nucleonAt h r).nid = 2212 then cn
               else if (nucleonAt h r).nid = 2112 then cn + 1 else cn) := by
          simp [sideStep, hw]
        rw [hstep]
        obtain ⟨ih1, ih2⟩ := ih (W ++ [r])
          (if (nucleonAt h r).nid = 2212 then cp + 1 else cp)
          (if (nucleonAt h r).nid = 2212 then cn
           else if (nucleonAt h r).nid = 2112 then cn + 1 else cn)
        rw [ih1, ih2, hWr]
        by_cases hid1 : (nucleonAt h r).nid = 2212
        · have hS1 : partSet h (r :: refs) 2212 = insert r (partSet h refs 2212) := by
            rw [partSet_cons, if_pos ⟨hw.1, hid1⟩]
          have hS2 : partSet h (r :: refs) 2112 = partSet h refs 2112 := by
            rw [partSet_cons, if_neg (fun hc => by
              have hc2 := hc.2
              rw [hid1] at hc2
              exact absurd hc2 (by decide))]
          have hr2 : r ∉ partSet h refs 2112 :=
            not_mem_partSet h r refs 2112 (by rw [hid1]; omega)
          rw [hS1, hS2, if_pos hid1, if_pos hid1,
            insert_sdiff_insert_eq _ _ _ hrW,
            sdiff_insert_of_not_mem_left _ _ _ hr2]
          constructor
          · push_cast
            ring
          · rfl
        · have hS1 : partSet h (r :: refs) 2212 = partSet h refs 2212 := by
            rw [partSet_cons, if_neg (fun hc => hid1 hc.2)]
          have hr1 : r ∉ partSet h refs 2212 := not_mem_partSet h r refs 2212 hid1
          rw [hS1, if_neg hid1, if_neg hid1,
            sdiff_insert_of_not_mem_left _ _ _ hr1]
          refine ⟨rfl, ?_⟩
          by_cases hid2 : (nucleonAt h r).nid = 2112
          · have hS2 : partSet h (r :: refs) 2112
                = insert r (partSet h refs 2112) := by
              rw [partSet_cons, if_pos ⟨hw.1, hid2⟩]
            rw [hS2, if_pos hid2, insert_sdiff_insert_eq _ _ _ hrW]
            push_cast
            ring
          · have hS2 : partSet h (r :: refs) 2112 = partSet h refs 2112 := by
              rw [partSet_cons, if_neg (fun hc => hid2 hc.2)]
            have hr2 : r ∉ partSet h refs 2112 := not_mem_partSet h r refs 2112 hid2
            rw [hS2, if_neg hid2, sdiff_insert_of_not_mem_left _ _ _ hr2]
      · have hstep : sideStep h (W, cp, cn) r = (W, cp, cn) := by
          simp only [sideStep]
          rw [if_neg]
          exact fun hc => hw ⟨hc.1, hc.2⟩
        rw [hstep]
        obtain ⟨ih1, ih2⟩ := ih W cp cn
        rw [ih1, ih2]
        have hsame : ∀ code : Int,
            partSet h (r :: refs) code \ W.toFinset
              = partSet h refs code \ W.toFinset := by
          intro code
          rw [partSet_cons]
          split
          case isTrue hpred =>
            have hrW : r ∈ W.toFinset := by
              rcases not_and_or.mp hw with hnw | hmem
              · exact absurd hpred.1 hnw
              · exact List.mem_toFinset.mpr (not_not.mp hmem)
            exact insert_sdiff_of_mem_right _ _ _ hrW
          case isFalse => rfl
        rw [hsame 2212, hsame 2112]
        exact ⟨rfl, rfl⟩

/-- C3: for every sub-collision list, `getNpart` counts each distinct nucleon
(compared by pointer identity) at most once: each of the four counters equals
the cardinality of the set of distinct wounded (absorbed or diffractive)
nucleon pointers of the corresponding side and species (2212 protons, 2112
neutrons); a nucleon appearing absorbed in two sub-collisions therefore
increments its species count exactly once. -/
theorem claim_C3_getNpart_distinct_count (h : HIInfo)
    (init : Int × Int × Int × Int) :
    getNpart4 (some h) init
      = ((partCount h (h.subCollisions.map SubColl.proj) 2212 : Int),
         (partCount h (h.subCollisions.map SubColl.proj) 2112 : Int),
         (partCount h (h.subCollisions.map SubColl.targ) 2212 : Int),
         (partCount h (h.subCollisions.map SubColl.targ) 2112 : Int)) := by
  obtain ⟨hb1, hb2⟩ := npartFold_eq_sideFold h h.subCollisions {}
  obtain ⟨hp1, hp2⟩ := sideFold_counts h (h.subCollisions.map SubColl.proj) [] 0 0
  obtain ⟨ht1, ht2⟩ := sideFold_counts h (h.subCollisions.map SubColl.targ) [] 0 0
  have e1 : (h.subCollisions.foldl (npartStep h) {}).nProtonProj
      = ((h.subCollisions.map SubColl.proj).foldl (sideStep h) ([], 0, 0)).2.1 :=
    congrArg (fun t => t.2.1) hb1
  have e2 : (h.subCollisions.foldl (npartStep h) {}).nNeutronProj
      = ((h.subCollisions.map SubColl.proj).foldl (sideStep h) ([], 0, 0)).2.2 :=
    congrArg (fun t => t.2.2) hb1
  have e3 : (h.subCollisions.foldl (npartStep h) {}).nProtonTarg
      = ((h.subCollisions.map SubColl.targ).foldl (sideStep h) ([], 0, 0)).2.1 :=
    congrArg (fun t => t.2.1) hb2
  have e4 : (h.subCollisions.foldl (npartStep h) {}).nNeutronTarg
      = ((h.subCollisions.map SubColl.targ).foldl (sideStep h) ([], 0, 0)).2.2 :=
    congrArg (fun t => t.2.2) hb2
  simp only [getNpart4]
  rw [e1, e2, e3, e4, hp1, hp2, ht1, ht2]
  simp [partCount]

/-! ### Binary-collision counting (`getNcoll`) -/

lemma ncoll_fold (h : HIInfo) :
    ∀ (scs : List SubColl) (n : Int),
      scs.foldl
        (fun n sc =>
          if (nucleonAt h sc.proj).nstatus = NStatus.ABS ∧
              (nucleonAt h sc.targ).nstatus = NStatus.ABS then n + 1 else n) n
        = n + ((scs.filter (fun sc =>
            decide ((nucleonAt h sc.proj).nstatus = NStatus.ABS ∧
              (nucleonAt h sc.targ).nstatus = NStatus.ABS))).length : Int) := by
  intro scs
  induction scs with
  | nil => intro n; simp
  | cons sc scs ih =>
      intro n
      rw [List.foldl_cons]
      by_cases hc : (nucleonAt h sc.proj).nstatus = NStatus.ABS ∧
          (nucleonAt h sc.targ).nstatus = NStatus.ABS
      · rw [if_pos hc, ih, List.filter_cons_of_pos (by simpa using hc)]
        simp [List.length_cons]
        omega
      · rw [if_neg hc, ih, List.filter_cons_of_neg (by simpa using hc)]

/-- C5: for every sub-collision list, `getNcoll` returns the number of
sub-collisions in which both the projectile and the target nucleon carry the
absorbed status; on an empty sub-collision list it returns zero, and on an
empty list `getNpart` likewise returns zero participants on both sides. -/
theorem claim_C5_getNcoll_both_absorbed (h : HIInfo) (ic : Int)
    (i4 : Int × Int × Int × Int) :
    getNcoll (some h) ic
      = ((h.subCollisions.filter (fun sc =>
          decide ((nucleonAt h sc.proj).nstatus = NStatus.ABS ∧
            (nucleonAt h sc.targ).nstatus = NStatus.ABS))).length : Int) ∧
    (h.subCollisions = [] →
      getNcoll (some h) ic = 0 ∧ getNpart4 (some h) i4 = (0, 0, 0, 0)) := by
  constructor
  · show h.subCollisions.foldl _ 0 = _
    rw [ncoll_fold h h.subCollisions 0]
    omega
  · intro hemp
    constructor
    · show h.subCollisions.foldl _ 0 = 0
      rw [hemp]
      rfl
    · simp only [getNpart4, hemp, List.foldl_nil]

/-- C5 witness: the claim instantiated on a heavy-ion record with an empty
sub-collision list and nonzero caller-provided output values. -/
theorem claim_C5_witness :
    HIInfo.subCollisions {} = ([] : List SubColl) ∧
    (getNcoll (some ({} : HIInfo)) 7 = 0 ∧
      getNpart4 (some ({} : HIInfo)) (1, 2, 3, 4) = (0, 0, 0, 0)) :=
  ⟨rfl, (claim_C5_getNcoll_both_absorbed {} 7 (1, 2, 3, 4)).2 rfl⟩

/-! ### Nuclear-remnant decoding (`getNremn`) -/

lemma remn_fold_proj :
    ∀ (l : List PyParticle) (st : RemnState),
      ((l.foldl remnStep st).nProtonProj, (l.foldl remnStep st).nNeutronProj)
        = (match (l.filter (fun p => decide (isRemnant p ∧ 0 < p.pz))).getLast? with
           | none => (st.nProtonProj, st.nNeutronProj)
           | some p => remnDecode p) := by
  intro l
  induction l with
  | nil => intro st; rfl
  | cons p l ih =>
      intro st
      rw [List.foldl_cons]
      rw [ih (remnStep st p)]
      by_cases hrem : isRemnant p
      · rcases lt_trichotomy p.pz 0 with hlt | heq | hgt
        · have hstep : ((remnStep st p).nProtonProj, (remnStep st p).nNeutronProj)
              = (st.nProtonProj, st.nNeutronProj) := by
            simp [remnStep, hrem, hlt, not_lt.mpr (le_of_lt hlt)]
          have hfilter : (p :: l).filter (fun p => decide (isRemnant p ∧ 0 < p.pz))
              = l.filter (fun p => decide (isRemnant p ∧ 0 < p.pz)) :=
            List.filter_cons_of_neg
              (by simp [hrem, not_lt.mpr (le_of_lt hlt)])
          rw [hstep, hfilter]
        · have hstep : remnStep st p = st := by
            simp [remnStep, hrem, heq]
          have hfilter : (p :: l).filter (fun p => decide (isRemnant p ∧ 0 < p.pz))
              = l.filter (fun p => decide (isRemnant p ∧ 0 < p.pz)) :=
            List.filter_cons_of_neg (by simp [hrem, heq])
          rw [hstep, hfilter]
        · have hstep : ((remnStep st p).nProtonProj, (remnStep st p).nNeutronProj)
              = remnDecode p := by
            simp [remnStep, hrem, hgt, not_lt.mpr (le_of_lt hgt), remnDecode]
          have hfilter : (p :: l).filter (fun p => decide (isRemnant p ∧ 0 < p.pz))
              = p :: l.filter (fun p => decide (isRemnant p ∧ 0 < p.pz)) :=
            List.filter_cons_of_pos (by simp [hrem, hgt])
          rw [hstep, hfilter]
          cases hm : l.filter (fun p => decide (isRemnant p ∧ 0 < p.pz)) with
          | nil => rfl
          | cons qh qt =>
              obtain ⟨x, hx⟩ : ∃ x, (qh :: qt).getLast? = some x :=
                ⟨_, List.getLast?_eq_getLast_of_ne_nil (List.cons_ne_nil qh qt)⟩
              rw [List.getLast?_cons_cons, hx]
      · have hstep : remnStep st p = st := by
          simp [remnStep, hrem]
        have hfilter : (p :: l).filter (fun p => decide (isRemnant p ∧ 0 < p.pz))
            = l.filter (fun p => decide (isRemnant p ∧ 0 < p.pz)) :=
          List.filter_cons_of_neg (by simp [hrem])
        rw [hstep, hfilter]

lemma remn_fold_targ :
    ∀ (l : List PyParticle) (st : RemnState),
      ((l.foldl remnStep st).nProtonTarg, (l.foldl remnStep st).nNeutronTarg)
        = (match (l.filter (fun p => decide (isRemnant p ∧ p.pz < 0))).getLast? with
           | none => (st.nProtonTarg, st.nNeutronTarg)
           | some p => remnDecode p) := by
  intro l
  induction l with
  | nil => intro st; rfl
  | cons p l ih =>
      intro st
      rw [List.foldl_cons]
      rw [ih (remnStep st p)]
      by_cases hrem : isRemnant p
      · rcases lt_trichotomy p.pz 0 with hlt | heq | hgt
        · have hstep : ((remnStep st p).nProtonTarg, (remnStep st p).nNeutronTarg)
              = remnDecode p := by
            simp [remnStep, hrem, hlt, not_lt.mpr (le_of_lt hlt), remnDecode]
          have hfilter : (p :: l).filter (fun p => decide (isRemnant p ∧ p.pz < 0))
              = p :: l.filter (fun p => decide (isRemnant p ∧ p.pz < 0)) :=
            List.filter_cons_of_pos (by simp [hrem, hlt])
          rw [hstep, hfilter]
          cases hm : l.filter (fun p => decide (isRemnant p ∧ p.pz < 0)) with
          | nil => rfl
          | cons qh qt =>
              obtain ⟨x, hx⟩ : ∃ x, (qh :: qt).getLast? = some x :=
                ⟨_, List.getLast?_eq_getLast_of_ne_nil (List.cons_ne_nil qh qt)⟩
              rw [List.getLast?_cons_cons, hx]
        · have hstep : remnStep st p = st := by
            simp [remnStep, hrem, heq]
          have hfilter : (p :: l).filter (fun p => decide (isRemnant p ∧ p.pz < 0))
              = l.filter (fun p => decide (isRemnant p ∧ p.pz < 0)) :=
            List.filter_cons_of_neg (by simp [hrem, heq])
          rw [hstep, hfilter]
        · have hstep : ((remnStep st p).nProtonTarg, (remnStep st p).nNeutronTarg)
              = (st.nProtonTarg, st.nNeutronTarg) := by
            simp [remnStep, hrem, hgt, not_lt.mpr (le_of_lt hgt)]
          have hfilter : (p :: l).filter (fun p => decide (isRemnant p ∧ p.pz < 0))
              = l.filter (fun p => decide (isRemnant p ∧ p.pz < 0)) :=
            List.filter_cons_of_neg
              (by simp [hrem, not_lt.mpr (le_of_lt hgt)])
          rw [hstep, hfilter]
      · have hstep : remnStep st p = st := by
          simp [remnStep, hrem]
        have hfilter : (p :: l).filter (fun p => decide (isRemnant p ∧ p.pz < 0))
            = l.filter (fun p => decide (isRemnant p ∧ p.pz < 0)) :=
          List.filter_cons_of_neg (by simp [hrem])
        rw [hstep, hfilter]

/-- C9: for every event, the per-side counts returned by `getNremn` are those
decoded from the last remnant of that side in event order (assignment
overwrites rather than accumulates, so with two or more same-sign remnants
the last one wins), and zero when the side has no remnant; the function is
total for any number of remnants. -/
theorem claim_C9_getNremn_last_wins (ev : Event) :
    (((getNremn ev).1, (getNremn ev).2.1)
      = match (projRemnants ev).getLast? with
        | none => ((0 : Int), (0 : Int))
        | some p => remnDecode p) ∧
    (((getNremn ev).2.2.1, (getNremn ev).2.2.2)
      = match (targRemnants ev).getLast? with
        | none => ((0 : Int), (0 : Int))
        | some p => remnDecode p) :=
  ⟨remn_fold_proj ev {}, remn_fold_targ ev {}⟩

/-- C4: `getNremn` decodes each nuclear-remnant identifier `10LZZZAAA9` by
repeated integer division/modulo into `A`, `Z`, `L` and assigns protons `Z`
and neutrons `A - Z` to the projectile side when the longitudinal momentum is
positive and to the target side when it is negative; for `A = 208`, `Z = 82`,
`L = 0` with positive longitudinal momentum the result is projectile protons
82 and neutrons 126. -/
theorem claim_C4_getNremn_decode (A Z L : Nat) (q : ℚ)
    (hA : A < 1000) (hZ : Z < 1000) (hL : L < 10) :
    (0 < q →
      getNremn [{ pdgId := encodeRemnPdg A Z L, pz := q }]
        = ((Z : Int), (A : Int) - (Z : Int), 0, 0)) ∧
    (q < 0 →
      getNremn [{ pdgId := encodeRemnPdg A Z L, pz := q }]
        = (0, 0, (Z : Int), (A : Int) - (Z : Int))) ∧
    getNremn [{ pdgId := encodeRemnPdg 208 82 0, pz := 1 }]
      = (82, 126, 0, 0) := by
  have hrem : isRemnant ({ pdgId := encodeRemnPdg A Z L, pz := q } : PyParticle) := by
    constructor
    · show (1000000000 : Int) ≤ encodeRemnPdg A Z L
      unfold encodeRemnPdg
      omega
    · show encodeRemnPdg A Z L % 10 = 9
      unfold encodeRemnPdg
      omega
  have hAv : remnantA ({ pdgId := encodeRemnPdg A Z L, pz := q } : PyParticle) = A := by
    show (encodeRemnPdg A Z L).toNat / 10 % 1000 = A
    unfold encodeRemnPdg
    rw [Int.toNat_natCast]
    omega
  have hZv : remnantZ ({ pdgId := encodeRemnPdg A Z L, pz := q } : PyParticle) = Z := by
    show (encodeRemnPdg A Z L).toNat / 10 / 1000 % 1000 = Z
    unfold encodeRemnPdg
    rw [Int.toNat_natCast]
    omega
  refine ⟨?_, ?_, by decide⟩
  · intro hq
    simp only [getNremn, List.foldl_cons, List.foldl_nil, remnStep,
      if_pos hrem]
    rw [if_pos hq, if_neg (not_lt.mpr (le_of_lt hq))]
    rw [hAv, hZv]
  · intro hq
    simp only [getNremn, List.foldl_cons, List.foldl_nil, remnStep,
      if_pos hrem]
    rw [if_neg (not_lt.mpr (le_of_lt hq)), if_pos hq]
    rw [hAv, hZv]

/-- C4 witness: decoding the remnant code for `A = 208`, `Z = 82`, `L = 0`
with positive longitudinal momentum. -/
theorem claim_C4_witness :
    getNremn [{ pdgId := encodeRemnPdg 208 82 0, pz := 1 }] = (82, 126, 0, 0) :=
  (claim_C4_getNremn_decode 208 82 0 1 (by decide) (by decide) (by decide)).1
    (by decide)

/-! ### Free-spectator clamping (`getNfreeSpec`) -/

lemma clampNeutron_bounds (nave d : ℚ) :
    0 ≤ clampNeutron nave d ∧ clampNeutron nave d ≤ 126 := by
  simp only [clampNeutron]
  by_cases h1 : nave < 0 ∨ truncToInt d < 0
  · rw [if_pos h1]
    simp
  · rw [if_neg h1]
    push_neg at h1
    have ht : 0 ≤ truncToInt d := h1.2
    by_cases h2 : 126 < truncToInt d
    · rw [if_pos h2]
      simp
    · rw [if_neg h2]
      omega

lemma clampProton_bounds (pave d : ℚ) :
    0 ≤ clampProton pave d ∧ clampProton pave d ≤ 82 := by
  simp only [clampProton]
  by_cases h1 : pave < 0 ∨ truncToInt (d / (7 / 10)) < 0
  · rw [if_pos h1]
    simp
  · rw [if_neg h1]
    push_neg at h1
    have ht : 0 ≤ truncToInt (d / (7 / 10)) := h1.2
    by_cases h2 : 82 < truncToInt (d / (7 / 10))
    · rw [if_pos h2]
      simp
    · rw [if_neg h2]
      omega

/-- C6: for every impact parameter (through the parametrisation values) and
every value returned by the Gaussian sampling primitive, each of the four
free-spectator counts produced by `getNfreeSpec` is silently clamped to a
nonnegative integer not exceeding the species-specific maximum: the two
neutron counts lie in [0, 126] and the two proton counts lie in [0, 82]. -/
theorem claim_C6_getNfreeSpec_clamped (h : HIInfo) (frag : FragModel)
    (draws : GausDraws) (init : Int × Int × Int × Int) :
    (0 ≤ (getNfreeSpec (some h) frag draws init).1 ∧
      (getNfreeSpec (some h) frag draws init).1 ≤ 126) ∧
    (0 ≤ (getNfreeSpec (some h) frag draws init).2.1 ∧
      (getNfreeSpec (some h) frag draws init).2.1 ≤ 82) ∧
    (0 ≤ (getNfreeSpec (some h) frag draws init).2.2.1 ∧
      (getNfreeSpec (some h) frag draws init).2.2.1 ≤ 126) ∧
    (0 ≤ (getNfreeSpec (some h) frag draws init).2.2.2 ∧
      (getNfreeSpec (some h) frag draws init).2.2.2 ≤ 82) := by
  simp only [getNfreeSpec]
  exact ⟨clampNeutron_bounds _ _, clampProton_bounds _ _,
    clampNeutron_bounds _ _, clampProton_bounds _ _⟩

/-! ### Event generation and particle import -/

/-- C7: whenever the physics library signals that it could not produce a next
event (`next()` fails, or — in pre-8.3 builds — the forced `moreDecays()`
fails), `generateEvent` returns the failure indicator `false` instead of
raising, and returns `true` otherwise. -/
theorem claim_C7_generateEvent_failure_indicator (v : Nat)
    (nextOk moreDecaysOk : Bool) :
    generateEvent v nextOk moreDecaysOk = false ↔
      (nextOk = false ∨ (v < 8300 ∧ moreDecaysOk = false)) := by
  cases nextOk <;> cases moreDecaysOk <;> by_cases hv : v < 8300 <;>
    simp [generateEvent, hv]

/-- C8: for every input event of size `n ≥ 1`, `importParticles` appends
exactly `n - 1` particles, skipping the event's first entry (the system
particle), and stores each particle's mother1/mother2/daughter1/daughter2
indices decremented by exactly one relative to the input event's indices. -/
theorem claim_C8_importParticles_skip_system (ev : Event) (hn : 1 ≤ ev.length) :
    (importParticles ev).length = ev.length - 1 ∧
    (∀ k, k < ev.length - 1 →
      (importParticles ev).getD k default
        = convertParticle (ev.getD (k + 1) default) ∧
      ((importParticles ev).getD k default).m1
        = ((ev.getD (k + 1) default).mother1 : Int) - 1 ∧
      ((importParticles ev).getD k default).m2
        = ((ev.getD (k + 1) default).mother2 : Int) - 1 ∧
      ((importParticles ev).getD k default).d1
        = ((ev.getD (k + 1) default).daughter1 : Int) - 1 ∧
      ((importParticles ev).getD k default).d2
        = ((ev.getD (k + 1) default).daughter2 : Int) - 1) := by
  have hlen : (importParticles ev).length = ev.length - 1 := by
    simp [importParticles]
  refine ⟨hlen, ?_⟩
  intro k hk
  have hget : (importParticles ev).getD k default
      = convertParticle (ev.getD (k + 1) default) := by
    rw [List.getD_eq_getElem _ _ (by rw [hlen]; exact hk)]
    simp only [importParticles, List.getElem_map, List.getElem_range']
    rw [show 1 + 1 * k = k + 1 from by omega]
  refine ⟨hget, ?_, ?_, ?_, ?_⟩ <;> rw [hget] <;> simp [convertParticle]

/-- C8 witness: the claim instantiated on the concrete five-particle event
`evW`, at output position 0. -/
theorem claim_C8_witness :
    1 ≤ evW.length ∧ (importParticles evW).length = evW.length - 1 ∧
    ((importParticles evW).getD 0 default).m1
      = ((evW.getD 1 default).mother1 : Int) - 1 :=
  ⟨by decide, (claim_C8_importParticles_skip_system evW (by decide)).1,
    ((claim_C8_importParticles_skip_system evW (by decide)).2 0 (by decide)).2.1⟩

/-- C10: when no heavy-ion information is present, `getNfreeSpec` returns
without assigning its four output reference parameters (they keep the
caller-provided values), whereas `getNcoll` and `getNpart` zero their outputs
before the same check. -/
theorem claim_C10_no_hiinfo_frame (frag : FragModel) (draws : GausDraws)
    (init : Int × Int × Int × Int) (ic : Int) (i4 : Int × Int × Int × Int) :
    getNfreeSpec none frag draws init = init ∧
    getNcoll none ic = 0 ∧
    getNpart4 none i4 = (0, 0, 0, 0) :=
  ⟨rfl, rfl, rfl⟩

end GeneratorPythia8
